import Mathlib

/-!
Verification of the expense-tracker ledger and reporting engine
(`src/expense_tracker.py`).  The Python program keeps a list of expense
records (dicts with keys `id`, `amount`, `category`, `description`,
`date`) and computes three reports over a date-filtered view: a category
breakdown, a monthly summary and a trend report.  This file is a shallow
embedding of that data model and of the functions the claims are about:
`get_next_id`, `add_expense_data`, the validation in `save_expense`,
`update_expense`, `delete_expense`, `search_expenses`,
`show_category_report`, `show_monthly_report` and `show_trend_report`.

Python floats are modelled as exact rationals (ℚ); Python strings as
Lean `String`; Python's insertion-ordered dicts as lists of keys in
first-seen order; `sorted` as an insertion sort, which is stable exactly
like Python's sort.
-/

/-! ## String helpers (Python string semantics) -/

/-- Python's `str.lower` on one character, for the ASCII range (the
program only searches over ASCII category/description/date text). -/
def lowerChar (c : Char) : Char :=
  if 'A' ≤ c ∧ c ≤ 'Z' then Char.ofNat (c.toNat + 32) else c

/-- Python's `str.lower`. -/
def lowerStr (s : String) : String := String.mk (s.data.map lowerChar)

/-- Lexicographic `≤` on character lists: Python's string comparison. -/
def listLe : List Char → List Char → Bool
  | [], _ => true
  | _ :: _, [] => false
  | a :: as, b :: bs => if a < b then true else if b < a then false else listLe as bs

/-- Python's `s <= t` on strings (lexicographic on code points). -/
def strLe (a b : String) : Bool := listLe a.data b.data

/-- Python's `needle in hay` membership on the underlying character
lists: `needle` occurs contiguously in the list. -/
def containsSub (needle : List Char) : List Char → Bool
  | [] => needle.isEmpty
  | c :: rest => needle.isPrefixOf (c :: rest) || containsSub needle rest

/-- Python's `needle in hay` on strings. -/
def strContains (hay needle : String) : Bool := containsSub needle.data hay.data

/-! ## Data model -/

/-- One expense record, as built by `add_expense_data`: a dict with keys
`id`, `amount`, `category`, `description`, `date`.  Amounts are Python
floats, modelled as exact rationals. -/
structure Expense where
  id : Nat
  amount : ℚ
  category : String
  description : String
  date : String
deriving DecidableEq, Repr

/-! ## Ledger store (`get_next_id`, `add_expense_data`) -/

/-- `get_next_id` (src lines 664-668): `1` when the ledger is empty,
otherwise `max(expense["id"] for expense in self.expenses) + 1`. -/
def get_next_id (expenses : List Expense) : Nat :=
  if expenses = [] then 1
  else ((expenses.map (·.id)).foldr max 0) + 1

/-- `add_expense_data` (src lines 641-656): builds the record with the
next id and appends it to `self.expenses`.  (The subsequent `save_data`
call and combobox refresh are I/O and UI, outside the data model.) -/
def add_expense_data (expenses : List Expense) (amount : ℚ)
    (category description date : String) : List Expense :=
  expenses ++ [{ id := get_next_id expenses, amount := amount,
                 category := category, description := description, date := date }]

/-- The in-place field update of `update_expense` (src lines 812-816):
the first record whose `id` matches gets its `amount`, `category`,
`description` and `date` replaced; the `id` key is never written. -/
def update_expense (expenses : List Expense) (eid : Nat) (amount : ℚ)
    (category description date : String) : List Expense :=
  match expenses with
  | [] => []
  | e :: rest =>
    if e.id = eid then
      { e with amount := amount, category := category,
               description := description, date := date } :: rest
    else e :: update_expense rest eid amount category description date

/-- The deletion loop of `delete_expense` (src lines 861-866): the first
record whose `id` matches is removed (`del self.expenses[index]`). -/
def delete_expense (expenses : List Expense) (eid : Nat) : List Expense :=
  match expenses with
  | [] => []
  | e :: rest => if e.id = eid then rest else e :: delete_expense rest eid

/-! ## Validation (`save_expense`, same checks in `quick_add_expense`
and `update_expense`) -/

/-- The error taxonomy of the validation gate: `save_expense` reports
"Amount must be positive", "Category is required" or "Invalid date
format" and returns without mutating the ledger. -/
inductive ValidationError where
  | invalidAmount
  | missingCategory
  | invalidDate
deriving DecidableEq, Repr

/-- Number denoted by a list of decimal digit characters. -/
def digitsToNat (cs : List Char) : Nat :=
  cs.foldl (fun acc c => 10 * acc + (c.toNat - '0'.toNat)) 0

/-- Gregorian leap-year rule, as used by `datetime.strptime`. -/
def isLeapYear (y : Nat) : Bool := (y % 4 = 0 ∧ y % 100 ≠ 0) ∨ y % 400 = 0

/-- Number of days in a month of the Gregorian calendar. -/
def daysInMonth (y m : Nat) : Nat :=
  if m = 2 then (if isLeapYear y then 29 else 28)
  else if m = 4 ∨ m = 6 ∨ m = 9 ∨ m = 11 then 30 else 31

/-- `datetime.datetime.strptime(date_str, "%Y-%m-%d")` succeeding:
the strict zero-padded `YYYY-MM-DD` shape denoting a real calendar
date. -/
def isValidDate (s : String) : Bool :=
  match s.data with
  | [y1, y2, y3, y4, '-', m1, m2, '-', d1, d2] =>
    if ([y1, y2, y3, y4, m1, m2, d1, d2].all Char.isDigit) then
      let y := digitsToNat [y1, y2, y3, y4]
      let m := digitsToNat [m1, m2]
      let d := digitsToNat [d1, d2]
      decide (1 ≤ m ∧ m ≤ 12 ∧ 1 ≤ d ∧ d ≤ daysInMonth y m)
    else false
  | _ => false

/-- The validation-then-mutation pipeline of `save_expense` (src lines
487-521; `quick_add_expense`, lines 601-623, performs the identical
checks): amount must be positive, category non-empty, date must parse;
on failure the error is reported and the ledger is returned untouched,
otherwise `add_expense_data` runs. -/
def save_expense (expenses : List Expense) (amount : ℚ)
    (category description dateStr : String) :
    List Expense × Option ValidationError :=
  if amount ≤ 0 then (expenses, some .invalidAmount)
  else if category = "" then (expenses, some .missingCategory)
  else if isValidDate dateStr = false then (expenses, some .invalidDate)
  else (add_expense_data expenses amount category description dateStr, none)

/-! ## Query engine -/

/-- The date-range filter used by all three reports (src lines 963-965,
1050-1051, 1134-1136): `from_date <= exp["date"] <= to_date`, Python's
chained (hence both-ends-inclusive) lexicographic string comparison. -/
def filterByDateRange (expenses : List Expense) (fromDate toDate : String) :
    List Expense :=
  expenses.filter (fun e => strLe fromDate e.date && strLe e.date toDate)

/-! ## Insertion sort (Python's stable `sorted`) -/

/-- Insert `a` in front of the first element `b` such that `before a b`;
with a total `before` this is the insertion step of a stable sort. -/
def insertOrd {α : Type} (before : α → α → Bool) (a : α) : List α → List α
  | [] => [a]
  | b :: l => if before a b then a :: b :: l else b :: insertOrd before a l

/-- Insertion sort; models Python's `sorted` (stable) with comparison
`before`. -/
def sortOrd {α : Type} (before : α → α → Bool) : List α → List α
  | [] => []
  | a :: l => insertOrd before a (sortOrd before l)

/-- `sorted(...)` on a list of strings, ascending. -/
def sortStr (l : List String) : List String := sortOrd (fun a b => strLe a b) l

/-- `sorted(self.expenses, key=lambda x: x["date"], reverse=True)`:
stable sort by date, newest first. -/
def sortByDateDesc (expenses : List Expense) : List Expense :=
  sortOrd (fun a b => strLe b.date a.date) expenses

/-! ## Free-text search (`search_expenses`, src lines 877-901) -/

/-- Python's `str()` of a JSON-loaded number: integers print without a
decimal point, which is all the concrete claims exercise; non-integral
rationals fall back to the `Rat` printer. -/
def amountStr (q : ℚ) : String := if q.den = 1 then toString q.num else toString q

/-- The per-record match of `search_expenses`: the (already lowered)
search text is a substring of the string form of `amount`, or of the
lower-cased `category`, `description` or `date`. -/
def matchesSearch (searchText : String) (e : Expense) : Bool :=
  strContains (lowerStr (amountStr e.amount)) searchText ||
  strContains (lowerStr e.category) searchText ||
  strContains (lowerStr e.description) searchText ||
  strContains (lowerStr e.date) searchText

/-- `search_expenses`: lower-case the box text; with the placeholder
text the function returns early without recomputing the view (`none`);
otherwise the date-descending expense list is filtered by
`matchesSearch`. -/
def search_expenses (expenses : List Expense) (text : String) :
    Option (List Expense) :=
  if lowerStr text = "search expenses..." then none
  else some ((sortByDateDesc expenses).filter (fun e => matchesSearch (lowerStr text) e))

/-! ## Grouping (Python `defaultdict(float)` accumulation) -/

/-- Keys of an insertion-ordered dict built by iterating a list: each
key once, in order of first appearance. -/
def firstSeenAux (seen : List String) : List String → List String
  | [] => []
  | c :: rest =>
    if c ∈ seen then firstSeenAux seen rest
    else c :: firstSeenAux (c :: seen) rest

/-- Distinct keys in first-seen order, as `defaultdict` iteration yields
them. -/
def firstSeen (l : List String) : List String := firstSeenAux [] l

/-- Total accumulated under key `k` by `totals[key(e)] += e["amount"]`. -/
def sumBy (key : Expense → String) (k : String) (l : List Expense) : ℚ :=
  ((l.filter (fun e => key e == k)).map (·.amount)).sum

/-- The full `defaultdict` as an association list in key-first-seen
order. -/
def groupTotals (key : Expense → String) (l : List Expense) : List (String × ℚ) :=
  (firstSeen (l.map key)).map (fun k => (k, sumBy key k l))

/-! ## Category breakdown (`show_category_report`, src lines 948-1032) -/

/-- The `category_totals` dict of the category report, over the
date-filtered expenses. -/
def categoryPairs (expenses : List Expense) (fromDate toDate : String) :
    List (String × ℚ) :=
  groupTotals (·.category) (filterByDateRange expenses fromDate toDate)

/-- `sorted(range(len(amounts)), key=lambda i: amounts[i], reverse=True)`
applied to the (category, amount) pairs: stable descending sort by
amount. -/
def sortDesc (l : List (String × ℚ)) : List (String × ℚ) :=
  sortOrd (fun p q => decide (q.2 ≤ p.2)) l

/-- The data series of `show_category_report`: `none` when the filtered
range is empty (the "no data" placeholder); otherwise the category
totals, collapsed through the `len(categories) > 8` branch that keeps
the seven largest totals and appends an `"Other"` bucket holding the sum
of the rest. -/
def show_category_report (expenses : List Expense) (fromDate toDate : String) :
    Option (List (String × ℚ)) :=
  if filterByDateRange expenses fromDate toDate = [] then none
  else if 8 < (categoryPairs expenses fromDate toDate).length then
    some ((sortDesc (categoryPairs expenses fromDate toDate)).take 7 ++
          [("Other",
            (((sortDesc (categoryPairs expenses fromDate toDate)).drop 7).map (·.2)).sum)])
  else some (categoryPairs expenses fromDate toDate)

/-! ## Monthly summary (`show_monthly_report`, src lines 1034-1117) -/

/-- `expense["date"][:7]`, the `YYYY-MM` month key. -/
def monthKey (e : Expense) : String := e.date.take 7

/-- The `(month, total)` series in `sorted(monthly_totals.keys())`
order. -/
def monthlyPairs (expenses : List Expense) (fromDate toDate : String) :
    List (String × ℚ) :=
  (sortStr (firstSeen ((filterByDateRange expenses fromDate toDate).map monthKey))).map
    (fun m => (m, sumBy monthKey m (filterByDateRange expenses fromDate toDate)))

/-- `sum(monthly_totals.values()) / len(monthly_totals)`, the reported
average monthly expense (values iterated in dict order). -/
def monthlyAverage (expenses : List Expense) (fromDate toDate : String) : ℚ :=
  ((firstSeen ((filterByDateRange expenses fromDate toDate).map monthKey)).map
      (fun m => sumBy monthKey m (filterByDateRange expenses fromDate toDate))).sum /
    (firstSeen ((filterByDateRange expenses fromDate toDate).map monthKey)).length

/-- The data of `show_monthly_report`: `none` for an empty filtered
range, otherwise the chronologically sorted `(month, total)` bars and
the average monthly expense. -/
def show_monthly_report (expenses : List Expense) (fromDate toDate : String) :
    Option (List (String × ℚ) × ℚ) :=
  if filterByDateRange expenses fromDate toDate = [] then none
  else some (monthlyPairs expenses fromDate toDate,
             monthlyAverage expenses fromDate toDate)

/-! ## Trend report (`show_trend_report`, src lines 1119-1212) -/

/-- Keys of the `date_totals` dict, in first-seen order. -/
def dateKeys (expenses : List Expense) (fromDate toDate : String) : List String :=
  firstSeen ((filterByDateRange expenses fromDate toDate).map (·.date))

/-- `sorted_dates = sorted(date_totals.keys())`. -/
def sortedDates (expenses : List Expense) (fromDate toDate : String) : List String :=
  sortStr (dateKeys expenses fromDate toDate)

/-- `[date_totals[d] for d in sorted_dates]`, the per-date totals in
ascending date order. -/
def dailyTotals (expenses : List Expense) (fromDate toDate : String) : List ℚ :=
  (sortedDates expenses fromDate toDate).map
    (fun d => sumBy (·.date) d (filterByDateRange expenses fromDate toDate))

/-- Numerator of the ordinary-least-squares slope over
`(i, ys[i])` pairs: `n·Σxy − Σx·Σy`. -/
def olsNum (ys : List ℚ) : ℚ :=
  (ys.length : ℚ) *
      (List.zipWith (fun x y => x * y)
        ((List.range ys.length).map (fun i : ℕ => (i : ℚ))) ys).sum -
    (((List.range ys.length).map (fun i : ℕ => (i : ℚ))).sum) * ys.sum

/-- Denominator of the ordinary-least-squares slope:
`n·Σx² − (Σx)²`. -/
def olsDen (ys : List ℚ) : ℚ :=
  (ys.length : ℚ) *
      (((List.range ys.length).map (fun i : ℕ => (i : ℚ))).map (fun x => x * x)).sum -
    (((List.range ys.length).map (fun i : ℕ => (i : ℚ))).sum) *
      (((List.range ys.length).map (fun i : ℕ => (i : ℚ))).sum)

/-- The degree-one leading coefficient `z[0]` of
`np.polyfit(dates_num, amounts, 1)`: the ordinary-least-squares slope
over `(index, daily_total)` pairs, in exact arithmetic. -/
def olsSlope (ys : List ℚ) : ℚ := olsNum ys / olsDen ys

/-- The trend-line legend (src lines 1176-1187): drawn only when there
is more than one distinct date, labelled `"increasing"` when
`z[0] > 0` and `"decreasing"` otherwise. -/
def trendLabel (expenses : List Expense) (fromDate toDate : String) :
    Option String :=
  if 1 < (sortedDates expenses fromDate toDate).length then
    some (if 0 < olsSlope (dailyTotals expenses fromDate toDate)
          then "increasing" else "decreasing")
  else none

/-- `total = sum(date_totals.values())` (src line 1206). -/
def trendTotal (expenses : List Expense) (fromDate toDate : String) : ℚ :=
  ((dateKeys expenses fromDate toDate).map
      (fun d => sumBy (·.date) d (filterByDateRange expenses fromDate toDate))).sum

/-- `avg_daily = total / len(date_totals)` (src line 1207). -/
def trendDailyAverage (expenses : List Expense) (fromDate toDate : String) : ℚ :=
  trendTotal expenses fromDate toDate / (dateKeys expenses fromDate toDate).length

/-- The statistics of `show_trend_report`: `none` for an empty filtered
range, otherwise the total, the reported daily average and the trend
label. -/
def show_trend_report (expenses : List Expense) (fromDate toDate : String) :
    Option (ℚ × ℚ × Option String) :=
  if filterByDateRange expenses fromDate toDate = [] then none
  else some (trendTotal expenses fromDate toDate,
             trendDailyAverage expenses fromDate toDate,
             trendLabel expenses fromDate toDate)

/-! ## Span in days, modelled from the spec

The program never computes a day span; claim C3's reference value
`total_spent / (span_in_days + 1)` therefore needs the spec's own
formula, embedded here under `spec`-prefixed names. -/

/-- Modelled from the spec: serial day number of a Gregorian calendar
date (days since 1970-01-01, the standard civil-from-days formula),
used only to express the spec's `span_in_days`. -/
def specDaysFromCivil (y m d : Int) : Int :=
  let yAdj : Int := if m ≤ 2 then y - 1 else y
  let era : Int := (if 0 ≤ yAdj then yAdj else yAdj - 399) / 400
  let yoe : Int := yAdj - era * 400
  let mp : Int := (m + 9) % 12
  let doy : Int := (153 * mp + 2) / 5 + d - 1
  let doe : Int := yoe * 365 + yoe / 4 - yoe / 100 + doy
  era * 146097 + doe - 719468

/-- Modelled from the spec: read the `YYYY-MM-DD` string form back into
numeric year, month and day. -/
def specParseDate (s : String) : Int × Int × Int :=
  match s.data with
  | [y1, y2, y3, y4, '-', m1, m2, '-', d1, d2] =>
    ((digitsToNat [y1, y2, y3, y4] : Int),
     (digitsToNat [m1, m2] : Int),
     (digitsToNat [d1, d2] : Int))
  | _ => (0, 0, 0)

/-- Modelled from the spec: `span_in_days`, the whole days between the
first and the last date of the filtered, sorted date set. -/
def specSpanInDays (dates : List String) : Int :=
  let sorted := sortStr dates
  let f := specParseDate (sorted.headD "")
  let l := specParseDate (sorted.getLastD "")
  specDaysFromCivil l.1 l.2.1 l.2.2 - specDaysFromCivil f.1 f.2.1 f.2.2

/-- Modelled from the spec: the daily average the spec prescribes,
`total_spent / (span_in_days + 1)`. -/
def specDailyAverage (expenses : List Expense) (fromDate toDate : String) : ℚ :=
  trendTotal expenses fromDate toDate /
    ((specSpanInDays ((filterByDateRange expenses fromDate toDate).map (·.date)) : ℚ) + 1)

/-! ## Helper lemmas: insertion sort -/

theorem perm_insertOrd {α : Type} (before : α → α → Bool) (a : α) (l : List α) :
    (insertOrd before a l).Perm (a :: l) := by
  induction l with
  | nil => simp [insertOrd]
  | cons b l ih =>
    by_cases h : before a b = true
    · simp [insertOrd, h]
    · simp only [insertOrd, h]
      rw [if_neg (by simp [h])]
      exact (ih.cons b).trans (List.Perm.swap a b l)

theorem perm_sortOrd {α : Type} (before : α → α → Bool) (l : List α) :
    (sortOrd before l).Perm l := by
  induction l with
  | nil => simp [sortOrd]
  | cons a l ih =>
    exact (perm_insertOrd before a (sortOrd before l)).trans (ih.cons a)

theorem pairwise_insertOrd {α : Type} (before : α → α → Bool)
    (htot : ∀ x y, before x y = false → before y x = true)
    (htrans : ∀ x y z, before x y = true → before y z = true → before x z = true)
    (a : α) (l : List α) (h : l.Pairwise fun x y => before x y = true) :
    (insertOrd before a l).Pairwise fun x y => before x y = true := by
  induction l with
  | nil => simp [insertOrd]
  | cons b l ih =>
    rcases List.pairwise_cons.mp h with ⟨hb, hl⟩
    by_cases hab : before a b = true
    · simp only [insertOrd, if_pos hab]
      refine List.pairwise_cons.mpr ⟨?_, h⟩
      intro y hy
      rcases List.mem_cons.mp hy with rfl | hy
      · exact hab
      · exact htrans a b y hab (hb y hy)
    · simp only [insertOrd, hab]
      rw [if_neg (by simp [hab])]
      refine List.pairwise_cons.mpr ⟨?_, ih hl⟩
      intro y hy
      rcases List.mem_cons.mp ((perm_insertOrd before a l).mem_iff.mp hy) with h' | hy
      · rw [h']; exact htot a b (by simpa using hab)
      · exact hb y hy

theorem pairwise_sortOrd {α : Type} (before : α → α → Bool)
    (htot : ∀ x y, before x y = false → before y x = true)
    (htrans : ∀ x y z, before x y = true → before y z = true → before x z = true)
    (l : List α) :
    (sortOrd before l).Pairwise fun x y => before x y = true := by
  induction l with
  | nil => simp [sortOrd]
  | cons a l ih => exact pairwise_insertOrd before htot htrans a (sortOrd before l) ih

/-! ## Helper lemmas: first-seen key lists -/

theorem mem_firstSeenAux (x : String) :
    ∀ (l seen : List String), x ∈ firstSeenAux seen l ↔ x ∈ l ∧ x ∉ seen := by
  intro l
  induction l with
  | nil => intro seen; simp [firstSeenAux]
  | cons c rest ih =>
    intro seen
    by_cases hc : c ∈ seen
    · rw [firstSeenAux, if_pos hc, ih]
      constructor
      · rintro ⟨h1, h2⟩; exact ⟨List.mem_cons_of_mem c h1, h2⟩
      · rintro ⟨h1, h2⟩
        rcases List.mem_cons.mp h1 with rfl | h1
        · exact absurd hc h2
        · exact ⟨h1, h2⟩
    · rw [firstSeenAux, if_neg hc]
      constructor
      · intro h
        rcases List.mem_cons.mp h with rfl | h
        · exact ⟨List.mem_cons_self x rest, hc⟩
        · rcases (ih (c :: seen)).mp h with ⟨h1, h2⟩
          exact ⟨List.mem_cons_of_mem c h1,
                 fun hx => h2 (List.mem_cons_of_mem c hx)⟩
      · rintro ⟨h1, h2⟩
        rcases List.mem_cons.mp h1 with rfl | h1
        · exact List.mem_cons_self x _
        · by_cases hxc : x = c
          · subst hxc; exact List.mem_cons_self x _
          · exact List.mem_cons_of_mem c
              ((ih (c :: seen)).mpr ⟨h1, by simp [hxc, h2]⟩)

theorem nodup_firstSeenAux :
    ∀ (l seen : List String), (firstSeenAux seen l).Nodup := by
  intro l
  induction l with
  | nil => intro seen; simp [firstSeenAux]
  | cons c rest ih =>
    intro seen
    by_cases hc : c ∈ seen
    · rw [firstSeenAux, if_pos hc]; exact ih seen
    · rw [firstSeenAux, if_neg hc]
      refine List.nodup_cons.mpr ⟨?_, ih (c :: seen)⟩
      intro hmem
      exact ((mem_firstSeenAux c rest (c :: seen)).mp hmem).2 (List.mem_cons_self c seen)

theorem mem_firstSeen (x : String) (l : List String) :
    x ∈ firstSeen l ↔ x ∈ l := by
  rw [firstSeen, mem_firstSeenAux]; simp

theorem nodup_firstSeen (l : List String) : (firstSeen l).Nodup :=
  nodup_firstSeenAux l []

/-! ## Helper lemmas: grouped sums partition the total -/

theorem sum_single_key_zero (k : String) (v : ℚ) :
    ∀ ks : List String, k ∉ ks →
      (ks.map (fun x => if k = x then v else 0)).sum = 0 := by
  intro ks
  induction ks with
  | nil => simp
  | cons a ks ih =>
    intro h
    have hka : k ≠ a := fun hk => h (hk ▸ List.mem_cons_self a ks)
    have hks : k ∉ ks := fun hk => h (List.mem_cons_of_mem a hk)
    simp [hka, ih hks]

theorem sum_single_key (k : String) (v : ℚ) :
    ∀ ks : List String, ks.Nodup → k ∈ ks →
      (ks.map (fun x => if k = x then v else 0)).sum = v := by
  intro ks
  induction ks with
  | nil => intro _ h; cases h
  | cons a ks ih =>
    intro hnd hk
    rcases List.nodup_cons.mp hnd with ⟨ha, hnd'⟩
    rcases List.mem_cons.mp hk with rfl | hk
    · simp [sum_single_key_zero k v ks ha]
    · have hka : k ≠ a := fun h => ha (h ▸ hk)
      simp [hka, ih hnd' hk]

theorem sumBy_nil (key : Expense → String) (k : String) : sumBy key k [] = 0 := rfl

theorem sumBy_cons (key : Expense → String) (k : String) (e : Expense)
    (t : List Expense) :
    sumBy key k (e :: t) = (if key e = k then e.amount else 0) + sumBy key k t := by
  rw [sumBy, List.filter_cons]
  by_cases h : key e = k
  · simp [sumBy, h]
  · simp [sumBy, h]

theorem sum_sumBy (key : Expense → String) (ks : List String) :
    ∀ l : List Expense, ks.Nodup → (∀ e ∈ l, key e ∈ ks) →
      (ks.map (fun k => sumBy key k l)).sum = (l.map (·.amount)).sum := by
  intro l
  induction l with
  | nil =>
    intro _ _
    simp only [List.map_nil, List.sum_nil]
    apply List.sum_eq_zero
    intro x hx
    rcases List.mem_map.mp hx with ⟨k, _, rfl⟩
    rfl
  | cons e t ih =>
    intro hnd hcov
    have he : key e ∈ ks := hcov e (List.mem_cons_self e t)
    have hcov' : ∀ x ∈ t, key x ∈ ks := fun x hx => hcov x (List.mem_cons_of_mem e hx)
    simp only [sumBy_cons]
    rw [List.sum_map_add, sum_single_key (key e) e.amount ks hnd he, ih hnd hcov']
    simp

theorem groupTotals_sum (key : Expense → String) (l : List Expense) :
    ((groupTotals key l).map (·.2)).sum = (l.map (·.amount)).sum := by
  rw [groupTotals, List.map_map]
  have : ((fun p : String × ℚ => p.2) ∘ fun k => (k, sumBy key k l)) =
      fun k => sumBy key k l := rfl
  rw [this]
  exact sum_sumBy key (firstSeen (l.map key)) l (nodup_firstSeen _)
    (fun e he => (mem_firstSeen _ _).mpr (List.mem_map_of_mem key he))

theorem groupTotals_keys (key : Expense → String) (l : List Expense) :
    (groupTotals key l).map (·.1) = firstSeen (l.map key) := by
  rw [groupTotals, List.map_map]
  exact List.map_id'' (fun _ => rfl) _

/-! ## Helper lemmas: lexicographic string comparison -/

theorem listLe_cons_iff (a b : Char) (as bs : List Char) :
    listLe (a :: as) (b :: bs) = true ↔ a < b ∨ (a = b ∧ listLe as bs = true) := by
  rw [listLe]
  by_cases h1 : a < b
  · simp [h1]
  · by_cases h2 : b < a
    · have hne : a ≠ b := ne_of_gt h2
      simp [h1, h2, hne]
    · have hab : a = b := le_antisymm (not_lt.mp h2) (not_lt.mp h1)
      simp [h1, h2, hab]

theorem listLe_refl : ∀ x : List Char, listLe x x = true := by
  intro x
  induction x with
  | nil => rfl
  | cons a as ih => rw [listLe_cons_iff]; exact Or.inr ⟨rfl, ih⟩

theorem listLe_total : ∀ x y : List Char, listLe x y = false → listLe y x = true := by
  intro x
  induction x with
  | nil => intro y h; cases h
  | cons a as ih =>
    intro y h
    cases y with
    | nil => rfl
    | cons b bs =>
      have h' : ¬ (a < b ∨ (a = b ∧ listLe as bs = true)) := by
        intro hc
        rw [(listLe_cons_iff a b as bs).mpr hc] at h
        simp at h
      push_neg at h'
      obtain ⟨hnab, h2⟩ := h'
      rw [listLe_cons_iff]
      by_cases hba : b < a
      · exact Or.inl hba
      · have hab : a = b := le_antisymm (not_lt.mp hba) hnab
        exact Or.inr ⟨hab.symm, ih bs (Bool.eq_false_iff.mpr (h2 hab))⟩

theorem listLe_trans :
    ∀ x y z : List Char, listLe x y = true → listLe y z = true → listLe x z = true := by
  intro x
  induction x with
  | nil => intro y z _ _; rfl
  | cons a as ih =>
    intro y z hxy hyz
    cases y with
    | nil => cases hxy
    | cons b bs =>
      cases z with
      | nil => cases hyz
      | cons c cs =>
        rw [listLe_cons_iff] at hxy hyz ⊢
        rcases hxy with hab | ⟨hab, hasbs⟩
        · rcases hyz with hbc | ⟨hbc, _⟩
          · exact Or.inl (lt_trans hab hbc)
          · exact Or.inl (hbc ▸ hab)
        · rcases hyz with hbc | ⟨hbc, hbscs⟩
          · exact Or.inl (hab ▸ hbc)
          · exact Or.inr ⟨hab.trans hbc, ih bs cs hasbs hbscs⟩

theorem lex_cons_iff (a b : Char) (as bs : List Char) :
    List.Lex (· < ·) (a :: as) (b :: bs) ↔
      a < b ∨ (a = b ∧ List.Lex (· < ·) as bs) := by
  constructor
  · intro h
    cases h with
    | cons h => exact Or.inr ⟨rfl, h⟩
    | rel h => exact Or.inl h
  · rintro (h | ⟨rfl, h⟩)
    · exact List.Lex.rel h
    · exact List.Lex.cons h

theorem listLe_iff_lex :
    ∀ x y : List Char, listLe x y = true ↔ x = y ∨ List.Lex (· < ·) x y := by
  intro x
  induction x with
  | nil =>
    intro y
    cases y with
    | nil => simp [listLe]
    | cons b bs => simp [listLe, List.Lex.nil]
  | cons a as ih =>
    intro y
    cases y with
    | nil =>
      constructor
      · intro h; cases h
      · rintro (h | h)
        · cases h
        · cases h
    | cons b bs =>
      rw [listLe_cons_iff, lex_cons_iff, ih bs]
      constructor
      · rintro (h | ⟨rfl, rfl | h⟩)
        · exact Or.inr (Or.inl h)
        · exact Or.inl rfl
        · exact Or.inr (Or.inr ⟨rfl, h⟩)
      · rintro (h | h | ⟨rfl, h⟩)
        · injection h with h1 h2
          subst h1; subst h2
          exact Or.inr ⟨rfl, Or.inl rfl⟩
        · exact Or.inl h
        · exact Or.inr ⟨rfl, Or.inr h⟩

theorem strLe_refl (s : String) : strLe s s = true := listLe_refl s.data

theorem strLe_total (a b : String) (h : strLe a b = false) : strLe b a = true :=
  listLe_total a.data b.data h

theorem strLe_trans (a b c : String) (h1 : strLe a b = true) (h2 : strLe b c = true) :
    strLe a c = true :=
  listLe_trans a.data b.data c.data h1 h2

theorem strLe_iff_lex (a b : String) :
    strLe a b = true ↔ a = b ∨ List.Lex (· < ·) a.data b.data := by
  rw [strLe, listLe_iff_lex]
  constructor
  · rintro (h | h)
    · exact Or.inl (congrArg String.mk h)
    · exact Or.inr h
  · rintro (rfl | h)
    · exact Or.inl rfl
    · exact Or.inr h

/-! ## Helper lemmas: id assignment -/

theorem le_foldr_max (x : Nat) :
    ∀ xs : List Nat, x ∈ xs → x ≤ xs.foldr max 0 := by
  intro xs
  induction xs with
  | nil => intro h; cases h
  | cons a as ih =>
    intro h
    rcases List.mem_cons.mp h with rfl | h
    · exact le_max_left _ _
    · exact le_trans (ih h) (le_max_right a _)

theorem foldr_max_mem : ∀ xs : List Nat, xs ≠ [] → xs.foldr max 0 ∈ xs := by
  intro xs
  induction xs with
  | nil => intro h; exact absurd rfl h
  | cons a as ih =>
    intro _
    cases as with
    | nil => simp
    | cons b bs =>
      rcases max_choice a ((b :: bs).foldr max 0) with h | h
      · rw [List.foldr_cons, h]; exact List.mem_cons_self a _
      · rw [List.foldr_cons, h]
        exact List.mem_cons_of_mem a (ih (by simp))

theorem id_lt_get_next_id (l : List Expense) (e : Expense) (he : e ∈ l) :
    e.id < get_next_id l := by
  have hne : l ≠ [] := by rintro rfl; cases he
  rw [get_next_id, if_neg hne]
  exact Nat.lt_succ_of_le (le_foldr_max _ _ (List.mem_map_of_mem (·.id) he))

theorem map_id_update (l : List Expense) (eid : Nat) (a : ℚ) (c d dt : String) :
    (update_expense l eid a c d dt).map (·.id) = l.map (·.id) := by
  induction l with
  | nil => rfl
  | cons e rest ih =>
    rw [update_expense]
    by_cases h : e.id = eid
    · simp [h]
    · simp [h, ih]

theorem delete_sublist (l : List Expense) (eid : Nat) :
    (delete_expense l eid).Sublist l := by
  induction l with
  | nil => simp [delete_expense]
  | cons e rest ih =>
    rw [delete_expense]
    by_cases h : e.id = eid
    · simp only [if_pos h]
      exact List.sublist_cons_self e rest
    · simp only [if_neg h]
      exact ih.cons₂ e

/-! ## Helper lemmas: least-squares denominator -/

theorem sum_range_cast (n : ℕ) :
    ((List.range n).map (fun i : ℕ => (i : ℚ))).sum = (n : ℚ) * ((n : ℚ) - 1) / 2 := by
  induction n with
  | zero => norm_num
  | succ n ih =>
    rw [List.range_succ, List.map_append, List.sum_append, ih]
    simp only [List.map_cons, List.map_nil, List.sum_cons, List.sum_nil, add_zero]
    push_cast
    ring

theorem sum_range_sq_cast (n : ℕ) :
    ((((List.range n).map (fun i : ℕ => (i : ℚ))).map (fun x => x * x)).sum) =
      (n : ℚ) * ((n : ℚ) - 1) * (2 * (n : ℚ) - 1) / 6 := by
  induction n with
  | zero => norm_num
  | succ n ih =>
    rw [List.range_succ, List.map_append, List.map_append, List.sum_append, ih]
    simp only [List.map_cons, List.map_nil, List.sum_cons, List.sum_nil, add_zero]
    push_cast
    ring

theorem olsDen_eq (ys : List ℚ) :
    olsDen ys = ((ys.length : ℚ)) ^ 2 * ((ys.length : ℚ) - 1) *
      ((ys.length : ℚ) + 1) / 12 := by
  rw [olsDen, sum_range_cast, sum_range_sq_cast]
  ring

theorem olsDen_pos (ys : List ℚ) (h : 2 ≤ ys.length) : 0 < olsDen ys := by
  rw [olsDen_eq]
  have h2 : (2 : ℚ) ≤ (ys.length : ℚ) := by exact_mod_cast h
  have hn : (0 : ℚ) < (ys.length : ℚ) := lt_of_lt_of_le (by norm_num) h2
  have hn1 : (0 : ℚ) < (ys.length : ℚ) - 1 := by linarith
  have hn2 : (0 : ℚ) < (ys.length : ℚ) + 1 := by linarith
  exact div_pos (mul_pos (mul_pos (pow_pos hn 2) hn1) hn2) (by norm_num)

/-! ## Helper lemmas: the two concrete sorts -/

theorem sortStr_perm (l : List String) : (sortStr l).Perm l :=
  perm_sortOrd _ l

theorem sortStr_pairwise (l : List String) :
    (sortStr l).Pairwise fun a b => strLe a b = true :=
  pairwise_sortOrd _ strLe_total strLe_trans l

theorem sortDesc_perm (l : List (String × ℚ)) : (sortDesc l).Perm l :=
  perm_sortOrd _ l

theorem sortDesc_pairwise (l : List (String × ℚ)) :
    (sortDesc l).Pairwise fun p q => q.2 ≤ p.2 := by
  have h := pairwise_sortOrd (fun p q : String × ℚ => decide (q.2 ≤ p.2))
    (fun x y hxy => decide_eq_true (le_of_not_le (of_decide_eq_false hxy)))
    (fun x y z hxy hyz =>
      decide_eq_true (le_trans (of_decide_eq_true hyz) (of_decide_eq_true hxy)))
    l
  exact h.imp (fun hab => of_decide_eq_true hab)

theorem monthlyPairs_fst (expenses : List Expense) (fromDate toDate : String) :
    (monthlyPairs expenses fromDate toDate).map (·.1) =
      sortStr (firstSeen ((filterByDateRange expenses fromDate toDate).map monthKey)) := by
  rw [monthlyPairs, List.map_map]
  exact List.map_id'' (fun _ => rfl) _

theorem categoryPairs_empty (expenses : List Expense) (fromDate toDate : String)
    (h : filterByDateRange expenses fromDate toDate = []) :
    categoryPairs expenses fromDate toDate = [] := by
  rw [categoryPairs, h]; rfl

/-! ## Concrete ledgers used by witnesses and counterexamples -/

/-- The three-record example ledger of the spec's §8. -/
def exampleLedger : List Expense :=
  [⟨1, 50, "Food", "", "2024-01-05"⟩,
   ⟨2, 30, "Food", "", "2024-01-20"⟩,
   ⟨3, 20, "Transport", "", "2024-02-01"⟩]

/-- Two categories whose first-seen order is not descending by total. -/
def exC1 : List Expense :=
  [⟨1, 10, "A", "", "2024-01-01"⟩, ⟨2, 20, "B", "", "2024-01-02"⟩]

/-- Nine distinct categories with strictly decreasing totals. -/
def exC2 : List Expense :=
  [⟨1, 90, "C1", "", "2024-01-01"⟩, ⟨2, 80, "C2", "", "2024-01-02"⟩,
   ⟨3, 70, "C3", "", "2024-01-03"⟩, ⟨4, 60, "C4", "", "2024-01-04"⟩,
   ⟨5, 50, "C5", "", "2024-01-05"⟩, ⟨6, 40, "C6", "", "2024-01-06"⟩,
   ⟨7, 30, "C7", "", "2024-01-07"⟩, ⟨8, 20, "C8", "", "2024-01-08"⟩,
   ⟨9, 10, "C9", "", "2024-01-09"⟩]

/-- Two transactions two days apart (span 2, distinct dates 2). -/
def exC3 : List Expense :=
  [⟨1, 10, "Food", "", "2024-01-01"⟩, ⟨2, 20, "Food", "", "2024-01-03"⟩]

/-! ## Claim C4 -/

/-- C4: for every ledger and every input, `add_expense_data` appends
exactly one record, whose id is `get_next_id`; `get_next_id` is `1` on
the empty ledger, exceeds every id present, and on a non-empty ledger is
one more than an id present in it (hence `max + 1`). -/
theorem add_expense_next_id (l : List Expense) (a : ℚ) (c d dt : String) :
    (add_expense_data l a c d dt).length = l.length + 1 ∧
    add_expense_data l a c d dt =
      l ++ [{ id := get_next_id l, amount := a, category := c,
              description := d, date := dt }] ∧
    (l = [] → get_next_id l = 1) ∧
    (∀ e ∈ l, e.id < get_next_id l) ∧
    (l ≠ [] → ∃ e ∈ l, get_next_id l = e.id + 1) := by
  refine ⟨by simp [add_expense_data], rfl, ?_, ?_, ?_⟩
  · intro h; rw [get_next_id, if_pos h]
  · exact fun e he => id_lt_get_next_id l e he
  · intro h
    rw [get_next_id, if_neg h]
    have hmem : (l.map (·.id)).foldr max 0 ∈ l.map (·.id) :=
      foldr_max_mem _ (by simpa using h)
    rcases List.mem_map.mp hmem with ⟨e, he, heq⟩
    exact ⟨e, he, by rw [heq]⟩

theorem add_expense_next_id_witness :
    (exampleLedger ≠ [] ∧
      ∃ e ∈ exampleLedger, get_next_id exampleLedger = e.id + 1) :=
  ⟨by decide,
   (add_expense_next_id exampleLedger 5 "Food" "" "2024-01-05").2.2.2.2 (by decide)⟩

/-! ## Claim C5 -/

/-- C5: an expense whose amount is not positive is rejected by the
validation gate with the invalid-amount error, and the ledger is
returned unchanged — no record is appended. -/
theorem save_expense_rejects_nonpositive (l : List Expense) (a : ℚ)
    (c d dt : String) (h : a ≤ 0) :
    save_expense l a c d dt = (l, some ValidationError.invalidAmount) := by
  rw [save_expense, if_pos h]

theorem save_expense_rejects_nonpositive_witness :
    ((-5 : ℚ) ≤ 0 ∧
      save_expense exampleLedger (-5) "Food" "" "2024-01-05" =
        (exampleLedger, some ValidationError.invalidAmount)) :=
  ⟨by decide,
   save_expense_rejects_nonpositive exampleLedger (-5) "Food" "" "2024-01-05" (by decide)⟩

/-! ## Claim C7 -/

/-- C7: the date-range filter keeps a transaction exactly when
`from ≤ date` and `date ≤ to` under the lexicographic order on the
`YYYY-MM-DD` strings, both endpoints inclusive (each bound admits the
equality case explicitly). -/
theorem date_filter_inclusive (l : List Expense) (fromDate toDate : String)
    (e : Expense) :
    e ∈ filterByDateRange l fromDate toDate ↔
      e ∈ l ∧
        (fromDate = e.date ∨ List.Lex (· < ·) fromDate.data e.date.data) ∧
        (e.date = toDate ∨ List.Lex (· < ·) e.date.data toDate.data) := by
  rw [filterByDateRange, List.mem_filter]
  simp only [Bool.and_eq_true]
  rw [strLe_iff_lex, strLe_iff_lex]

/-! ## Claim C10 -/

/-- C10: pairwise-distinct ids are preserved by add (which assigns an id
strictly greater than every existing one), by edit (which never writes
the id field) and by delete (which only removes a record). -/
theorem ids_nodup_invariant (l : List Expense) (eid : Nat) (a : ℚ)
    (c d dt : String) (h : (l.map (·.id)).Nodup) :
    ((add_expense_data l a c d dt).map (·.id)).Nodup ∧
    ((update_expense l eid a c d dt).map (·.id)).Nodup ∧
    ((delete_expense l eid).map (·.id)).Nodup := by
  refine ⟨?_, ?_, ?_⟩
  · rw [add_expense_data, List.map_append]
    rw [List.nodup_append]
    refine ⟨h, List.nodup_singleton _, ?_⟩
    intro x hx hx'
    rcases List.mem_map.mp hx with ⟨e, he, rfl⟩
    have heq : e.id = get_next_id l := by simpa using hx'
    exact absurd heq (Nat.ne_of_lt (id_lt_get_next_id l e he))
  · rw [map_id_update]; exact h
  · exact List.Nodup.sublist (List.Sublist.map (·.id) (delete_sublist l eid)) h

theorem ids_nodup_invariant_witness :
    ((exampleLedger.map (·.id)).Nodup ∧
      ((delete_expense exampleLedger 2).map (·.id)).Nodup) :=
  ⟨by decide, (ids_nodup_invariant exampleLedger 2 5 "c" "d" "2024-01-01" (by decide)).2.2⟩

/-! ## Claim C9 -/

/-- C9: away from the placeholder text, search returns exactly the
(date-descending) transactions whose string form of amount, or
lower-cased category, description or date, contains the lower-cased
search text as a substring; searching `"food"` on the spec's example
ledger yields precisely the records with ids 1 and 2 (date-descending,
so listed as `[2, 1]`). -/
theorem search_matches_iff :
    (∀ (l : List Expense) (text : String) (e : Expense),
      lowerStr text ≠ "search expenses..." →
        (search_expenses l text =
            some ((sortByDateDesc l).filter (fun x => matchesSearch (lowerStr text) x)) ∧
         (e ∈ (search_expenses l text).getD [] ↔
            e ∈ l ∧ matchesSearch (lowerStr text) e = true))) ∧
    ((search_expenses exampleLedger "food").getD []).map (·.id) = [2, 1] := by
  constructor
  · intro l text e h
    constructor
    · rw [search_expenses, if_neg h]
    · rw [search_expenses, if_neg h, Option.getD_some, List.mem_filter]
      rw [sortByDateDesc]
      constructor
      · rintro ⟨h1, h2⟩; exact ⟨(perm_sortOrd _ l).mem_iff.mp h1, h2⟩
      · rintro ⟨h1, h2⟩; exact ⟨(perm_sortOrd _ l).mem_iff.mpr h1, h2⟩
  · decide

theorem search_matches_iff_witness :
    (lowerStr "food" ≠ "search expenses..." ∧
      search_expenses exampleLedger "food" =
        some ((sortByDateDesc exampleLedger).filter
          (fun x => matchesSearch (lowerStr "food") x))) :=
  ⟨by decide,
   (search_matches_iff.1 exampleLedger "food" ⟨1, 50, "Food", "", "2024-01-05"⟩
     (by decide)).1⟩

/-! ## Claim C8 -/

/-- C8: on a non-empty filtered range the monthly report lists the
`YYYY-MM` month keys strictly ascending in the lexicographic (hence
chronological) order — so without duplicates —, its per-month totals sum
to the total amount of the filtered range, the months listed are exactly
the months occurring in the filtered range, and the reported average is
that total divided by the number of months. -/
theorem monthly_report_sorted_partition (expenses : List Expense)
    (fromDate toDate : String)
    (h : filterByDateRange expenses fromDate toDate ≠ []) :
    show_monthly_report expenses fromDate toDate =
      some (monthlyPairs expenses fromDate toDate,
            monthlyAverage expenses fromDate toDate) ∧
    ((monthlyPairs expenses fromDate toDate).map (·.1)).Pairwise
      (fun a b => List.Lex (· < ·) a.data b.data) ∧
    ((monthlyPairs expenses fromDate toDate).map (·.2)).sum =
      ((filterByDateRange expenses fromDate toDate).map (·.amount)).sum ∧
    (∀ m, m ∈ (monthlyPairs expenses fromDate toDate).map (·.1) ↔
      m ∈ (filterByDateRange expenses fromDate toDate).map monthKey) ∧
    monthlyAverage expenses fromDate toDate =
      ((filterByDateRange expenses fromDate toDate).map (·.amount)).sum /
        (monthlyPairs expenses fromDate toDate).length := by
  have hnd : (sortStr (firstSeen
      ((filterByDateRange expenses fromDate toDate).map monthKey))).Nodup :=
    ((sortStr_perm _).nodup_iff).mpr (nodup_firstSeen _)
  have hsum : ((firstSeen ((filterByDateRange expenses fromDate toDate).map monthKey)).map
      (fun m => sumBy monthKey m (filterByDateRange expenses fromDate toDate))).sum =
      ((filterByDateRange expenses fromDate toDate).map (·.amount)).sum :=
    sum_sumBy monthKey _ _ (nodup_firstSeen _)
      (fun e he => (mem_firstSeen _ _).mpr (List.mem_map_of_mem monthKey he))
  have hlen : (monthlyPairs expenses fromDate toDate).length =
      (firstSeen ((filterByDateRange expenses fromDate toDate).map monthKey)).length := by
    rw [monthlyPairs, List.length_map, (sortStr_perm _).length_eq]
  refine ⟨by rw [show_monthly_report, if_neg h], ?_, ?_, ?_, ?_⟩
  · rw [monthlyPairs_fst]
    have hp := (sortStr_pairwise (firstSeen
      ((filterByDateRange expenses fromDate toDate).map monthKey))).and hnd
    refine hp.imp ?_
    rintro a b ⟨hle, hne⟩
    rcases (strLe_iff_lex a b).mp hle with rfl | hlex
    · exact absurd rfl hne
    · exact hlex
  · rw [monthlyPairs, List.map_map]
    have hc : ((fun p : String × ℚ => p.2) ∘
        fun m => (m, sumBy monthKey m (filterByDateRange expenses fromDate toDate))) =
        fun m => sumBy monthKey m (filterByDateRange expenses fromDate toDate) := rfl
    rw [hc, ((sortStr_perm _).map _).sum_eq, hsum]
  · intro m
    rw [monthlyPairs_fst, (sortStr_perm _).mem_iff, mem_firstSeen]
  · rw [monthlyAverage, hsum, hlen]

theorem monthly_report_sorted_partition_witness :
    (filterByDateRange exampleLedger "2024-01-01" "2024-02-28" ≠ [] ∧
      show_monthly_report exampleLedger "2024-01-01" "2024-02-28" =
        some (monthlyPairs exampleLedger "2024-01-01" "2024-02-28",
              monthlyAverage exampleLedger "2024-01-01" "2024-02-28")) :=
  ⟨by decide, (monthly_report_sorted_partition exampleLedger _ _ (by decide)).1⟩

/-! ## Claim C3 -/

/-- C3 (amended): on a non-empty filtered range the trend report's daily
average is the filtered total divided by the number of *distinct dates*
present (the keys of `date_totals`), not by the day span plus one; the
date keys are exactly the distinct dates of the filtered range. -/
theorem trend_daily_average_distinct_dates (expenses : List Expense)
    (fromDate toDate : String)
    (h : filterByDateRange expenses fromDate toDate ≠ []) :
    show_trend_report expenses fromDate toDate =
      some (trendTotal expenses fromDate toDate,
            trendDailyAverage expenses fromDate toDate,
            trendLabel expenses fromDate toDate) ∧
    trendTotal expenses fromDate toDate =
      ((filterByDateRange expenses fromDate toDate).map (·.amount)).sum ∧
    trendDailyAverage expenses fromDate toDate =
      ((filterByDateRange expenses fromDate toDate).map (·.amount)).sum /
        (dateKeys expenses fromDate toDate).length ∧
    (dateKeys expenses fromDate toDate).Nodup ∧
    (∀ d, d ∈ dateKeys expenses fromDate toDate ↔
      d ∈ (filterByDateRange expenses fromDate toDate).map (·.date)) := by
  have hsum : trendTotal expenses fromDate toDate =
      ((filterByDateRange expenses fromDate toDate).map (·.amount)).sum := by
    rw [trendTotal, dateKeys]
    exact sum_sumBy (·.date) _ _ (nodup_firstSeen _)
      (fun e he => (mem_firstSeen _ _).mpr (List.mem_map_of_mem (·.date) he))
  refine ⟨by rw [show_trend_report, if_neg h], hsum, ?_, nodup_firstSeen _, ?_⟩
  · rw [trendDailyAverage, hsum]
  · intro d
    rw [dateKeys, mem_firstSeen]

theorem trend_daily_average_distinct_dates_witness :
    (filterByDateRange exC3 "2024-01-01" "2024-12-31" ≠ [] ∧
      (dateKeys exC3 "2024-01-01" "2024-12-31").Nodup) :=
  ⟨by decide, (trend_daily_average_distinct_dates exC3 _ _ (by decide)).2.2.2.1⟩

/-- C3 counterexample: two expenses of 10 and 20 dated 2024-01-01 and
2024-01-03.  The span is 2 whole days, so the claimed value is
`30 / (2 + 1) = 10`, but the report divides by the 2 distinct dates and
shows `15`. -/
theorem trend_daily_average_span_cex :
    trendDailyAverage exC3 "2024-01-01" "2024-12-31" = 15 ∧
    specDailyAverage exC3 "2024-01-01" "2024-12-31" = 10 ∧
    trendDailyAverage exC3 "2024-01-01" "2024-12-31" ≠
      specDailyAverage exC3 "2024-01-01" "2024-12-31" := by
  have hf : filterByDateRange exC3 "2024-01-01" "2024-12-31" = exC3 := by decide
  have hk : dateKeys exC3 "2024-01-01" "2024-12-31" =
      ["2024-01-01", "2024-01-03"] := by decide
  have ht : trendTotal exC3 "2024-01-01" "2024-12-31" = 30 := by
    rw [trendTotal, hk, hf]
    norm_num +decide [sumBy, exC3, List.filter_cons, List.filter_nil, beq_iff_eq]
  have hspan : specSpanInDays (exC3.map (·.date)) = 2 := by decide
  have hda : trendDailyAverage exC3 "2024-01-01" "2024-12-31" = 15 := by
    rw [trendDailyAverage, ht, hk]
    norm_num
  have hsp : specDailyAverage exC3 "2024-01-01" "2024-12-31" = 10 := by
    rw [specDailyAverage, ht, hf, hspan]
    norm_num
  refine ⟨hda, hsp, ?_⟩
  rw [hda, hsp]
  norm_num

/-! ## Claim C6 -/

/-- C6: with at least two distinct dates in the filtered range, the
least-squares denominator over the index axis is strictly positive (so
the fitted slope is a well-defined ratio), the legend reads
`"increasing"` exactly when the slope is strictly positive, and a zero
slope is labelled `"decreasing"`. -/
theorem trend_label_slope_sign (expenses : List Expense)
    (fromDate toDate : String)
    (h : 2 ≤ (sortedDates expenses fromDate toDate).length) :
    0 < olsDen (dailyTotals expenses fromDate toDate) ∧
    (trendLabel expenses fromDate toDate = some "increasing" ↔
      0 < olsSlope (dailyTotals expenses fromDate toDate)) ∧
    (olsSlope (dailyTotals expenses fromDate toDate) = 0 →
      trendLabel expenses fromDate toDate = some "decreasing") := by
  have hlen : (dailyTotals expenses fromDate toDate).length =
      (sortedDates expenses fromDate toDate).length := by
    rw [dailyTotals, List.length_map]
  have hden : 0 < olsDen (dailyTotals expenses fromDate toDate) :=
    olsDen_pos _ (by rw [hlen]; exact h)
  have h1 : 1 < (sortedDates expenses fromDate toDate).length :=
    lt_of_lt_of_le one_lt_two h
  refine ⟨hden, ?_, ?_⟩
  · rw [trendLabel, if_pos h1]
    constructor
    · intro hc
      by_contra hs
      rw [if_neg hs] at hc
      exact absurd (Option.some.inj hc) (by decide)
    · intro hs
      rw [if_pos hs]
  · intro hs
    rw [trendLabel, if_pos h1, if_neg (by rw [hs]; exact lt_irrefl 0)]

theorem trend_label_slope_sign_witness :
    (2 ≤ (sortedDates exC3 "2024-01-01" "2024-12-31").length ∧
      0 < olsDen (dailyTotals exC3 "2024-01-01" "2024-12-31")) :=
  ⟨by decide, (trend_label_slope_sign exC3 _ _ (by decide)).1⟩

/-! ## Claim C1 -/

/-- C1 (amended): the category report does group by category and sum the
amounts per group — each listed total is the sum over its category, the
listed categories are exactly (and once each) those of the filtered
range, and the totals add up to the filtered total — but with eight or
fewer distinct categories the pairs are emitted in category-first-seen
order, not sorted; descending order is only produced by the
more-than-eight branch. -/
theorem category_report_unsorted_when_few (expenses : List Expense)
    (fromDate toDate : String)
    (h : filterByDateRange expenses fromDate toDate ≠ [])
    (h8 : (categoryPairs expenses fromDate toDate).length ≤ 8) :
    show_category_report expenses fromDate toDate =
      some (categoryPairs expenses fromDate toDate) ∧
    ((categoryPairs expenses fromDate toDate).map (·.1)).Nodup ∧
    (∀ p ∈ categoryPairs expenses fromDate toDate,
      p.2 = sumBy (·.category) p.1 (filterByDateRange expenses fromDate toDate)) ∧
    ((categoryPairs expenses fromDate toDate).map (·.2)).sum =
      ((filterByDateRange expenses fromDate toDate).map (·.amount)).sum ∧
    (∀ c, c ∈ (categoryPairs expenses fromDate toDate).map (·.1) ↔
      c ∈ (filterByDateRange expenses fromDate toDate).map (·.category)) := by
  refine ⟨?_, ?_, ?_, ?_, ?_⟩
  · rw [show_category_report, if_neg h, if_neg (not_lt.mpr h8)]
  · rw [categoryPairs, groupTotals_keys]
    exact nodup_firstSeen _
  · intro p hp
    rw [categoryPairs, groupTotals] at hp
    rcases List.mem_map.mp hp with ⟨k, _, rfl⟩
    rfl
  · rw [categoryPairs]
    exact groupTotals_sum _ _
  · intro c
    rw [categoryPairs, groupTotals_keys, mem_firstSeen]

theorem category_report_unsorted_when_few_witness :
    (filterByDateRange exampleLedger "2024-01-01" "2024-02-28" ≠ [] ∧
      (categoryPairs exampleLedger "2024-01-01" "2024-02-28").length ≤ 8 ∧
      show_category_report exampleLedger "2024-01-01" "2024-02-28" =
        some (categoryPairs exampleLedger "2024-01-01" "2024-02-28")) :=
  ⟨by decide, by decide,
   (category_report_unsorted_when_few exampleLedger _ _ (by decide) (by decide)).1⟩

/-- C1 counterexample: category "A" (total 10) is first seen before "B"
(total 20); with only two distinct categories the report emits
`[("A", 10), ("B", 20)]`, whose adjacent totals are not in descending
order. -/
theorem category_report_not_descending_cex :
    show_category_report exC1 "2024-01-01" "2024-12-31" =
      some [("A", 10), ("B", 20)] ∧
    ¬ List.Chain' (fun p q : String × ℚ => q.2 ≤ p.2)
        [("A", (10 : ℚ)), ("B", 20)] := by
  have hf : filterByDateRange exC1 "2024-01-01" "2024-12-31" = exC1 := by decide
  have hp : categoryPairs exC1 "2024-01-01" "2024-12-31" = [("A", 10), ("B", 20)] := by
    rw [categoryPairs, hf, groupTotals]
    norm_num +decide [firstSeen, firstSeenAux, sumBy, exC1, List.filter_cons,
      List.filter_nil, beq_iff_eq]
  constructor
  · rw [show_category_report, hf, hp]
    norm_num [exC1]
    intro hl
    simp at hl
  · norm_num [List.chain'_cons, List.chain'_singleton]

/-! ## Claim C2 -/

/-- C2 (amended): with more than eight distinct categories the report
keeps the *seven* top totals in descending order and appends a final
synthetic `"Other"` bucket holding the sum of the totals ranked eighth
and onward, so the chart always has exactly eight entries and the entry
totals still add up to the filtered total. -/
theorem category_report_other_bucket (expenses : List Expense)
    (fromDate toDate : String)
    (h8 : 8 < (categoryPairs expenses fromDate toDate).length) :
    show_category_report expenses fromDate toDate =
      some ((sortDesc (categoryPairs expenses fromDate toDate)).take 7 ++
            [("Other",
              (((sortDesc (categoryPairs expenses fromDate toDate)).drop 7).map
                (·.2)).sum)]) ∧
    ((((sortDesc (categoryPairs expenses fromDate toDate)).take 7 ++
        [("Other",
          (((sortDesc (categoryPairs expenses fromDate toDate)).drop 7).map
            (·.2)).sum)]).map (·.2)).sum =
      ((filterByDateRange expenses fromDate toDate).map (·.amount)).sum) ∧
    ((sortDesc (categoryPairs expenses fromDate toDate)).take 7).Pairwise
      (fun p q => q.2 ≤ p.2) ∧
    ((sortDesc (categoryPairs expenses fromDate toDate)).take 7 ++
        [("Other",
          (((sortDesc (categoryPairs expenses fromDate toDate)).drop 7).map
            (·.2)).sum)]).length = 8 := by
  have hne : filterByDateRange expenses fromDate toDate ≠ [] := by
    intro hf
    rw [categoryPairs_empty _ _ _ hf] at h8
    simp at h8
  have hlen : (sortDesc (categoryPairs expenses fromDate toDate)).length =
      (categoryPairs expenses fromDate toDate).length := (sortDesc_perm _).length_eq
  refine ⟨?_, ?_, ?_, ?_⟩
  · rw [show_category_report, if_neg hne, if_pos h8]
  · rw [List.map_append, List.sum_append]
    simp only [List.map_cons, List.map_nil, List.sum_cons, List.sum_nil, add_zero]
    have hsplit :
        ((((sortDesc (categoryPairs expenses fromDate toDate)).take 7).map (·.2)).sum +
          (((sortDesc (categoryPairs expenses fromDate toDate)).drop 7).map (·.2)).sum) =
        ((sortDesc (categoryPairs expenses fromDate toDate)).map (·.2)).sum := by
      rw [← List.sum_append, ← List.map_append, List.take_append_drop]
    rw [hsplit, ((sortDesc_perm _).map _).sum_eq, categoryPairs]
    exact groupTotals_sum _ _
  · exact List.Pairwise.sublist (List.take_sublist 7 _) (sortDesc_pairwise _)
  · rw [List.length_append, List.length_take, hlen]
    simp
    omega

theorem category_report_other_bucket_witness :
    (8 < (categoryPairs exC2 "2024-01-01" "2024-12-31").length ∧
      ((sortDesc (categoryPairs exC2 "2024-01-01" "2024-12-31")).take 7 ++
        [("Other",
          (((sortDesc (categoryPairs exC2 "2024-01-01" "2024-12-31")).drop 7).map
            (·.2)).sum)]).length = 8) :=
  ⟨by decide, (category_report_other_bucket exC2 _ _ (by decide)).2.2.2⟩

/-- C2 counterexample: nine categories `C1..C9` with totals `90..10`.
The report shows the top seven plus `"Other" = 20 + 10 = 30` (eight
entries); the claimed shape — the top eight plus `"Other" = 10` (nine
entries) — is not what is produced. -/
theorem category_report_top8_cex :
    show_category_report exC2 "2024-01-01" "2024-12-31" =
      some [("C1", 90), ("C2", 80), ("C3", 70), ("C4", 60), ("C5", 50),
            ("C6", 40), ("C7", 30), ("Other", 30)] ∧
    show_category_report exC2 "2024-01-01" "2024-12-31" ≠
      some [("C1", 90), ("C2", 80), ("C3", 70), ("C4", 60), ("C5", 50),
            ("C6", 40), ("C7", 30), ("C8", 20), ("Other", 10)] := by
  have hf : filterByDateRange exC2 "2024-01-01" "2024-12-31" = exC2 := by decide
  have hp : categoryPairs exC2 "2024-01-01" "2024-12-31" =
      [("C1", 90), ("C2", 80), ("C3", 70), ("C4", 60), ("C5", 50),
       ("C6", 40), ("C7", 30), ("C8", 20), ("C9", 10)] := by
    rw [categoryPairs, hf, groupTotals]
    norm_num +decide [firstSeen, firstSeenAux, sumBy, exC2, List.filter_cons,
      List.filter_nil, beq_iff_eq]
  have hs : sortDesc [("C1", (90 : ℚ)), ("C2", 80), ("C3", 70), ("C4", 60),
      ("C5", 50), ("C6", 40), ("C7", 30), ("C8", 20), ("C9", 10)] =
      [("C1", 90), ("C2", 80), ("C3", 70), ("C4", 60), ("C5", 50),
       ("C6", 40), ("C7", 30), ("C8", 20), ("C9", 10)] := by
    norm_num +decide [sortDesc, sortOrd, insertOrd]
  have hrep : show_category_report exC2 "2024-01-01" "2024-12-31" =
      some [("C1", 90), ("C2", 80), ("C3", 70), ("C4", 60), ("C5", 50),
            ("C6", 40), ("C7", 30), ("Other", 30)] := by
    rw [show_category_report, hf, hp, hs]
    norm_num [exC2]
    intro hl
    simp at hl
  exact ⟨hrep, by rw [hrep]; decide⟩
